import Mathlib

/-!
Verification of `astrbot/core/agent/tool_image_cache.py` (ToolImageCache).

The module is shallowly embedded: the in-memory index (`self._cache`) becomes an
association list from reference strings to `CachedImage` records, the filesystem
becomes an explicit list of file entries (path, bytes, mtime) together with
failure oracles standing for the I/O exceptions the Python code catches
(`open`/`read` failures, `os.remove` failures, `os.listdir` failures), and the
clock `time.time()` becomes an explicit `now : Nat` field.  Python exceptions
that propagate to the caller are `Except.error`; exceptions the code swallows
are reflected by total functions returning `Option`/`Bool`/`Nat` results.

The standard-library collaborators `base64.b64decode` / `base64.b64encode` are
modelled executably over byte lists (`List Nat`, each byte `< 256`).  The
source calls `b64decode` with its default `validate=False`, which delegates to
`binascii.a2b_base64` in non-strict mode: characters outside the base64
alphabet are skipped, a completed padding sequence ends decoding successfully
(ignoring the rest), and decoding raises exactly when the data ends mid-quad
(after first raising on any non-ASCII character while encoding the `str` to
ASCII bytes).  The decoder below mirrors that state machine, so the model
fails on precisely the payloads the program's decode raises on.
-/

namespace ToolImageCache

/-! ### Base64 model (`base64.b64decode` / `base64.b64encode`) -/

/-- Value of one base64 alphabet character, `none` for a non-alphabet character. -/
def sextetOf (c : Char) : Option Nat :=
  if 65 ≤ c.toNat ∧ c.toNat ≤ 90 then some (c.toNat - 65)
  else if 97 ≤ c.toNat ∧ c.toNat ≤ 122 then some (26 + (c.toNat - 97))
  else if 48 ≤ c.toNat ∧ c.toNat ≤ 57 then some (52 + (c.toNat - 48))
  else if c.toNat = 43 then some 62
  else if c.toNat = 47 then some 63
  else none

/-- Base64 alphabet character for a sextet value `< 64`. -/
def b64Char (n : Nat) : Char :=
  if n < 26 then Char.ofNat (65 + n)
  else if n < 52 then Char.ofNat (97 + (n - 26))
  else if n < 62 then Char.ofNat (48 + (n - 52))
  else if n = 62 then '+'
  else '/'

/-- Model of `binascii.a2b_base64` in non-strict mode, as reached by the
source's `base64.b64decode(...)` call (default `validate=False`).  Arguments:
remaining characters, quad position (0–3), pending bits of the current quad
(`leftchar` in the C implementation), and the count of `'='` seen since the
last data character.  Per character: a non-alphabet character is skipped; a
`'='` increments the padding count and — once the current quad holds at least
two data characters and data plus padding reach four — ends decoding
successfully, ignoring everything after; an alphabet character emits a byte at
quad positions 1–3 and resets the padding count.  At the end of input,
decoding fails (the Python call raises) exactly when the quad position is not
zero. -/
def a2b : List Char → Nat → Nat → Nat → Option (List Nat)
  | [], quad, _, _ => if quad = 0 then some [] else none
  | c :: rest, quad, left, pads =>
    if c = '=' then
      if 2 ≤ quad ∧ 4 ≤ quad + (pads + 1) then some []
      else a2b rest quad left (pads + 1)
    else
      match sextetOf c with
      | none => a2b rest quad left pads
      | some v =>
        if quad = 0 then a2b rest 1 v 0
        else if quad = 1 then
          (a2b rest 2 (v % 16) 0).map (fun bs => (left * 4 + v / 16) :: bs)
        else if quad = 2 then
          (a2b rest 3 (v % 4) 0).map (fun bs => (left * 16 + v / 4) :: bs)
        else (a2b rest 0 0 0).map (fun bs => (left * 64 + v) :: bs)

/-- Encode a byte list three bytes at a time, padding the final group. -/
def b64encodeChunks : List Nat → List Char
  | [] => []
  | [b1] => [b64Char (b1 / 4), b64Char (b1 % 4 * 16), '=', '=']
  | [b1, b2] => [b64Char (b1 / 4), b64Char (b1 % 4 * 16 + b2 / 16),
                 b64Char (b2 % 16 * 4), '=']
  | b1 :: b2 :: b3 :: rest =>
    b64Char (b1 / 4) :: b64Char (b1 % 4 * 16 + b2 / 16) ::
    b64Char (b2 % 16 * 4 + b3 / 64) :: b64Char (b3 % 64) :: b64encodeChunks rest

/-- Model of `base64.b64decode` as the source calls it (`validate=False`):
the string is first encoded to ASCII bytes (raising on any non-ASCII
character), then fed to the non-strict `a2b` machine.  `none` means the
Python call raises. -/
def b64decode (s : String) : Option (List Nat) :=
  if s.toList.all (fun c => c.toNat ≤ 127) then a2b s.toList 0 0 0 else none

/-- Model of `base64.b64encode(...).decode("utf-8")`. -/
def b64encode (bs : List Nat) : String :=
  String.mk (b64encodeChunks bs)

/-! ### String helpers from the source -/

/-- Model of Python `str.lower()` on the ASCII fragment exercised by MIME
types: uppercase ASCII letters are shifted to lowercase, all other characters
kept. -/
def lowerChar (c : Char) : Char :=
  if 65 ≤ c.toNat ∧ c.toNat ≤ 90 then Char.ofNat (c.toNat + 32) else c

/-- Model of `mime_type.lower()`. -/
def pyLower (s : String) : String :=
  String.mk (s.toList.map lowerChar)

/-- Model of `os.path.join(dir, name)` for a directory path and a file name. -/
def pathJoin (dir name : String) : String :=
  dir ++ "/" ++ name

/-- First component of `image_ref.rsplit("_", 1)`:
`some before` when the character list contains a `'_'` (`before` = everything
before the last one), `none` otherwise. -/
def splitLastAux : List Char → Option (List Char)
  | [] => none
  | c :: rest =>
    match splitLastAux rest with
    | some b => some (c :: b)
    | none => if c = '_' then some [] else none

/-- Source lines 136–137: `parts = image_ref.rsplit("_", 1); parts[0] if
len(parts) > 1 else image_ref`. -/
def toolCallIdOf (image_ref : String) : String :=
  match splitLastAux image_ref.toList with
  | some b => String.mk b
  | none => image_ref

/-- The spec's own description of the reconstructed `tool_call_id`: the prefix
of `image_ref` before its last underscore, or the whole reference when it
contains no underscore.  Stated independently of `rsplit` via the position of
the last `'_'`; proved equal to `toolCallIdOf` below. -/
def prefixBeforeLastUnderscore (r : String) : String :=
  if '_' ∈ r.toList then
    String.mk (r.toList.take (r.toList.length - 1 - List.indexOf '_' r.toList.reverse))
  else r

/-! ### Data model (`CachedImage`, index, filesystem, cache state) -/

/-- The `CachedImage` dataclass: one cached image's metadata. -/
structure CachedImage where
  image_ref : String
  tool_call_id : String
  tool_name : String
  file_path : String
  mime_type : String
  created_at : Nat
  deriving Repr, DecidableEq

/-- One file of the modelled filesystem: path, contents, modification time. -/
structure FileEnt where
  path : String
  bytes : List Nat
  mtime : Nat
  deriving Repr, DecidableEq

/-- The filesystem the cache operates on, together with failure oracles
standing for the I/O exceptions the Python code can encounter: `readFails p`
(reading file `p` raises), `writeFails p` (opening `p` for writing raises),
`removeFails p` (`os.remove(p)` raises), `listFails` (`os.listdir` raises). -/
structure FileSys where
  files : List FileEnt
  readFails : String → Bool
  writeFails : String → Bool
  removeFails : String → Bool
  listFails : Bool

def findFile : List FileEnt → String → Option FileEnt
  | [], _ => none
  | f :: rest, p => if f.path = p then some f else findFile rest p

/-- Model of `os.path.exists` / `os.path.isfile` on the modelled filesystem. -/
def fsExists (fs : FileSys) (p : String) : Bool :=
  (findFile fs.files p).isSome

/-- Contents read from a file, `none` if the file does not exist. -/
def fsRead (fs : FileSys) (p : String) : Option (List Nat) :=
  (findFile fs.files p).map FileEnt.bytes

/-- Model of `open(p, "wb").write(bs)` at time `t`: overwrites any existing file. -/
def fsWrite (fs : FileSys) (p : String) (bs : List Nat) (t : Nat) : FileSys :=
  { fs with files := ⟨p, bs, t⟩ :: fs.files.filter (fun f => f.path ≠ p) }

/-- Model of `os.remove p`. -/
def fsRemove (fs : FileSys) (p : String) : FileSys :=
  { fs with files := fs.files.filter (fun f => f.path ≠ p) }

/-- Model of `self._cache.get(ref)` on the association-list index. -/
def idxLookup : List (String × CachedImage) → String → Option CachedImage
  | [], _ => none
  | (k, v) :: rest, r => if k = r then some v else idxLookup rest r

/-- Model of `self._cache[ref] = img` (insert or overwrite). -/
def idxInsert (idx : List (String × CachedImage)) (r : String) (img : CachedImage) :
    List (String × CachedImage) :=
  (r, img) :: idx.filter (fun e => e.1 ≠ r)

/-- Model of `self._cache.pop(ref, None)`, state part. -/
def idxErase (idx : List (String × CachedImage)) (r : String) :
    List (String × CachedImage) :=
  idx.filter (fun e => e.1 ≠ r)

/-- The whole mutable state a `ToolImageCache` instance operates on:
the in-memory index `self._cache`, the cache directory path, the filesystem,
and the current value of `time.time()`. -/
structure CacheState where
  index : List (String × CachedImage)
  cacheDir : String
  fs : FileSys
  now : Nat

/-- The `CACHE_EXPIRY` class constant (seconds). -/
def CACHE_EXPIRY : Nat := 3600

/-! ### Operations, translated from the source -/

/-- The `mime_to_ext` dict of `_get_file_extension`. -/
def mimeToExt : List (String × String) :=
  [("image/png", ".png"), ("image/jpeg", ".jpg"), ("image/jpg", ".jpg"),
   ("image/gif", ".gif"), ("image/webp", ".webp"), ("image/bmp", ".bmp"),
   ("image/svg+xml", ".svg")]

def lookupExt : List (String × String) → String → Option String
  | [], _ => none
  | (k, v) :: rest, m => if k = m then some v else lookupExt rest m

/-- Model of `_get_file_extension`: `mime_to_ext.get(mime_type.lower(), ".png")`. -/
def getFileExtension (mime_type : String) : String :=
  (lookupExt mimeToExt (pyLower mime_type)).getD ".png"

/-- The `CachedImage(...)` record `save_image` constructs:
`image_ref = f"{tool_call_id}_{index}"`, the file path
`{cache_dir}/{image_ref}{ext}` with `ext` derived from the MIME type, and
`created_at` the current time. -/
def savedImage (s : CacheState) (tool_call_id tool_name : String) (index : Nat)
    (mime_type : String) : CachedImage :=
  { image_ref := tool_call_id ++ "_" ++ toString index,
    tool_call_id := tool_call_id, tool_name := tool_name,
    file_path := pathJoin s.cacheDir
      ((tool_call_id ++ "_" ++ toString index) ++ getFileExtension mime_type),
    mime_type := mime_type, created_at := s.now }

/-- Model of `save_image`.  A result of `Except.error ()` models the exception the
method re-raises (base64 decode failure, or a failed file write); in that
case the paired state is untouched, since the exception fires before any
file write or index mutation takes effect. -/
def saveImage (s : CacheState) (base64_data tool_call_id tool_name : String)
    (index : Nat) (mime_type : String) : Except Unit CachedImage × CacheState :=
  match b64decode base64_data with
  | none => (.error (), s)
  | some image_bytes =>
    if s.fs.writeFails (savedImage s tool_call_id tool_name index mime_type).file_path
    then (.error (), s)
    else
      (.ok (savedImage s tool_call_id tool_name index mime_type),
       { s with
          fs := fsWrite s.fs
            (savedImage s tool_call_id tool_name index mime_type).file_path
            image_bytes s.now,
          index := idxInsert s.index
            (savedImage s tool_call_id tool_name index mime_type).image_ref
            (savedImage s tool_call_id tool_name index mime_type) })

/-- Candidate extensions of the reconstruction probe in `get_image`. -/
def probeCandidates : List String := [".png", ".jpg", ".gif", ".webp", ".bmp"]

/-- The `CachedImage(...)` record the reconstruction loop of `get_image`
builds for a file found as `{image_ref}{ext}`. -/
def reconImage (s : CacheState) (image_ref ext : String) : CachedImage :=
  { image_ref := image_ref, tool_call_id := toolCallIdOf image_ref,
    tool_name := "unknown", file_path := pathJoin s.cacheDir (image_ref ++ ext),
    mime_type := "image/" ++ ext.drop 1, created_at := s.now }

/-- The `for ext in [...]` reconstruction loop of `get_image`. -/
def probeExts (s : CacheState) (image_ref : String) :
    List String → Option CachedImage × CacheState
  | [] => (none, s)
  | ext :: rest =>
    if fsExists s.fs (pathJoin s.cacheDir (image_ref ++ ext)) then
      (some (reconImage s image_ref ext),
       { s with index := idxInsert s.index image_ref (reconImage s image_ref ext) })
    else probeExts s image_ref rest

/-- Model of `get_image`. -/
def getImage (s : CacheState) (image_ref : String) : Option CachedImage × CacheState :=
  match idxLookup s.index image_ref with
  | some cached =>
    if fsExists s.fs cached.file_path then (some cached, s)
    else probeExts s image_ref probeCandidates
  | none => probeExts s image_ref probeCandidates

/-- Model of `get_image_base64`.  The `try/except` around the file read is modelled by
the `readFails` oracle and by a vanished file mapping to `none`; no exception
escapes, hence the total `Option` result type. -/
def getImageBase64 (s : CacheState) (image_ref : String) :
    Option (String × String) × CacheState :=
  match getImage s image_ref with
  | (none, s') => (none, s')
  | (some cached, s') =>
    if s'.fs.readFails cached.file_path then (none, s')
    else
      match fsRead s'.fs cached.file_path with
      | none => (none, s')
      | some bytes => (some (b64encode bytes, cached.mime_type), s')

/-- Model of `delete_image`. -/
def deleteImage (s : CacheState) (image_ref : String) : Bool × CacheState :=
  match idxLookup s.index image_ref with
  | none => (false, s)
  | some cached =>
    let s1 := { s with index := idxErase s.index image_ref }
    if fsExists s1.fs cached.file_path then
      if s1.fs.removeFails cached.file_path then (false, s1)
      else (true, { s1 with fs := fsRemove s1.fs cached.file_path })
    else (false, s1)

/-- The `expired_refs` collected by the first loop of `cleanup_expired`. -/
def expiredRefs (s : CacheState) : List String :=
  (s.index.filter (fun e => s.now - e.2.created_at > CACHE_EXPIRY)).map Prod.fst

/-- The index-driven phase of `cleanup_expired`: each expired reference is
passed through `delete_image` (return value ignored). -/
def cleanupPhase1 (s : CacheState) : CacheState :=
  (expiredRefs s).foldl (fun acc r => (deleteImage acc r).2) s

/-- The orphan-file loop of `cleanup_expired` over the `os.listdir` snapshot:
counts files actually removed; a raising `os.remove` aborts the rest of the
loop (the exception is caught by the surrounding `try`), contributing nothing
further. -/
def orphanSweep (s : CacheState) : List FileEnt → Nat × CacheState
  | [] => (0, s)
  | f :: rest =>
    if fsExists s.fs f.path then
      if s.now - f.mtime > CACHE_EXPIRY then
        if s.fs.removeFails f.path then (0, s)
        else
          let s' := { s with fs := fsRemove s.fs f.path }
          let (c, s'') := orphanSweep s' rest
          (c + 1, s'')
      else orphanSweep s rest
    else orphanSweep s rest

/-- Model of `cleanup_expired`: index-driven phase, then orphan-file phase, returning
`len(expired_refs)` (refs collected in phase one plus file names appended in
phase two). -/
def cleanupExpired (s : CacheState) : Nat × CacheState :=
  let n1 := (expiredRefs s).length
  let s1 := cleanupPhase1 s
  if s1.fs.listFails then (n1, s1)
  else
    let (n2, s2) := orphanSweep s1 s1.fs.files
    (n1 + n2, s2)

/-! ### Singleton construction (`__new__` / `__init__`) -/

/-- The attributes of a `ToolImageCache` instance relevant to construction:
the `_initialized` flag set by `__new__`/`__init__`, the index and the cache
directory. -/
structure CacheInstance where
  initialized : Bool
  index : List (String × CachedImage)
  cacheDir : String
  deriving Repr, DecidableEq

/-- Model of `__new__`: allocate a fresh uninitialized instance only when
`cls._instance` is `None`; otherwise return the stored instance. -/
def newAlloc (inst? : Option CacheInstance) : CacheInstance × Option CacheInstance :=
  match inst? with
  | some inst => (inst, some inst)
  | none =>
    let fresh : CacheInstance := { initialized := false, index := [], cacheDir := "" }
    (fresh, some fresh)

/-- Model of `__init__`: a no-op on an initialized instance, otherwise sets up the
empty index and the cache directory `{temp}/tool_images`. -/
def initInstance (inst : CacheInstance) (tempPath : String) : CacheInstance :=
  if inst.initialized then inst
  else { initialized := true, index := [], cacheDir := pathJoin tempPath "tool_images" }

/-- Model of `ToolImageCache()`: `__new__` followed by `__init__`, with the class-level
`_instance` slot tracking the (mutated) instance. -/
def constructCache (inst? : Option CacheInstance) (tempPath : String) :
    CacheInstance × Option CacheInstance :=
  let (inst, _) := newAlloc inst?
  let inst' := initInstance inst tempPath
  (inst', some inst')

/-! ### Concrete states used to instantiate the theorems -/

/-- A filesystem with the given files and no injected I/O failures. -/
def plainFS (files : List FileEnt) : FileSys :=
  { files := files, readFails := fun _ => false, writeFails := fun _ => false,
    removeFails := fun _ => false, listFails := false }

/-- A freshly initialized cache over an empty directory. -/
def cleanCacheState (dir : String) (now : Nat) : CacheState :=
  { index := [], cacheDir := dir, fs := plainFS [], now := now }

def delImg : CachedImage :=
  { image_ref := "abc_0", tool_call_id := "abc", tool_name := "shot",
    file_path := "d/abc_0.png", mime_type := "image/png", created_at := 100 }

/-- A cache holding one image whose backing file exists. -/
def delState : CacheState :=
  { index := [("abc_0", delImg)], cacheDir := "d",
    fs := plainFS [⟨"d/abc_0.png", [65], 100⟩], now := 100 }

def staleImg : CachedImage :=
  { image_ref := "r", tool_call_id := "r", tool_name := "shot",
    file_path := "d/gone.png", mime_type := "image/png", created_at := 0 }

/-- A cache whose only index entry points at a file that no longer exists,
with nothing on disk to reconstruct from. -/
def staleState : CacheState :=
  { index := [("r", staleImg)], cacheDir := "d", fs := plainFS [], now := 0 }

/-- A cold cache (empty index) over a directory holding `abc_0.webp`. -/
def coldState : CacheState :=
  { index := [], cacheDir := "d", fs := plainFS [⟨"d/abc_0.webp", [9], 5⟩], now := 7 }

/-- Like `delState` but every file read raises. -/
def readFailState : CacheState :=
  { delState with fs := { delState.fs with readFails := fun _ => true } }

/-- A cache with one expired index entry (plus its file), one fresh orphan
file and one expired orphan file. -/
def sweepState : CacheState :=
  { index := [("abc_0", delImg)], cacheDir := "d",
    fs := plainFS [⟨"d/abc_0.png", [65], 100⟩, ⟨"d/fresh.png", [2], 9000⟩,
                   ⟨"d/old.png", [3], 200⟩],
    now := 10000 }

/-! ### Helper lemmas -/

theorem sextetOf_b64Char : ∀ n, n < 64 → sextetOf (b64Char n) = some n := by decide

theorem b64Char_ne_pad : ∀ n, n < 64 → b64Char n ≠ '=' := by decide

theorem sextetOf_lt {c : Char} {s : Nat} (h : sextetOf c = some s) : s < 64 := by
  unfold sextetOf at h
  split_ifs at h <;> simp_all <;> omega

/-- Every byte produced by the decoder is a genuine byte (`< 256`). -/
theorem b64Char_ascii : ∀ n, n < 64 → (b64Char n).toNat ≤ 127 := by decide

/-- Every byte the decoder emits is a genuine byte (`< 256`); the three
hypotheses are the reachable bounds on the pending bits at each quad
position. -/
theorem a2b_bytes_lt :
    ∀ {l : List Char} {quad left pads : Nat} {bs : List Nat},
      (quad = 1 → left < 64) → (quad = 2 → left < 16) → (3 ≤ quad → left < 4) →
      a2b l quad left pads = some bs → ∀ b ∈ bs, b < 256
  | [], quad, left, pads, bs, _, _, _, h => by
    rw [a2b] at h
    split_ifs at h
    · cases h; simp
  | c :: rest, quad, left, pads, bs, h1, h2, h3, h => by
    rw [a2b] at h
    by_cases hc : c = '='
    · rw [if_pos hc] at h
      split_ifs at h with hdone
      · cases h; simp
      · exact a2b_bytes_lt h1 h2 h3 h
    · rw [if_neg hc] at h
      rcases hv : sextetOf c with _ | v <;> rw [hv] at h <;> dsimp only at h
      · exact a2b_bytes_lt h1 h2 h3 h
      · have hv64 := sextetOf_lt hv
        rcases quad with _ | _ | _ | q
        · rw [if_pos rfl] at h
          exact a2b_bytes_lt (fun _ => hv64) (fun hq => absurd hq (by decide))
            (fun hq => absurd hq (by decide)) h
        · rw [if_neg (by omega), if_pos rfl, Option.map_eq_some'] at h
          obtain ⟨bs', hbs', rfl⟩ := h
          intro b hb
          rcases List.mem_cons.mp hb with rfl | hb'
          · have hl := h1 rfl
            omega
          · exact a2b_bytes_lt (fun hq => absurd hq (by decide)) (fun _ => by omega)
              (fun hq => absurd hq (by decide)) hbs' b hb'
        · rw [if_neg (by omega), if_neg (by omega), if_pos rfl,
              Option.map_eq_some'] at h
          obtain ⟨bs', hbs', rfl⟩ := h
          intro b hb
          rcases List.mem_cons.mp hb with rfl | hb'
          · have hl := h2 rfl
            omega
          · exact a2b_bytes_lt (fun hq => absurd hq (by decide))
              (fun hq => absurd hq (by decide)) (fun _ => by omega) hbs' b hb'
        · rw [if_neg (by omega), if_neg (by omega), if_neg (by omega),
              Option.map_eq_some'] at h
          obtain ⟨bs', hbs', rfl⟩ := h
          intro b hb
          rcases List.mem_cons.mp hb with rfl | hb'
          · have hl := h3 (by omega)
            omega
          · exact a2b_bytes_lt (fun hq => absurd hq (by decide))
              (fun hq => absurd hq (by decide)) (fun hq => absurd hq (by decide))
              hbs' b hb'

/-- The non-strict decoder is a left inverse of the encoder on genuine byte
lists. -/
theorem a2b_b64encodeChunks :
    ∀ (bs : List Nat), (∀ b ∈ bs, b < 256) →
      a2b (b64encodeChunks bs) 0 0 0 = some bs
  | [], _ => rfl
  | [b1], hb => by
    have hb1 : b1 < 256 := hb b1 (by simp)
    have e1 : b1 / 4 < 64 := by omega
    have e2 : b1 % 4 * 16 < 64 := by omega
    rw [b64encodeChunks]
    rw [a2b, if_neg (b64Char_ne_pad _ e1), sextetOf_b64Char _ e1]
    dsimp only
    rw [if_pos rfl]
    rw [a2b, if_neg (b64Char_ne_pad _ e2), sextetOf_b64Char _ e2]
    dsimp only
    rw [if_neg (by omega), if_pos rfl]
    rw [a2b, if_pos rfl, if_neg (by omega)]
    rw [a2b, if_pos rfl, if_pos (by omega)]
    simp only [Option.map_some', Option.some.injEq, List.cons.injEq, and_true]
    omega
  | [b1, b2], hb => by
    have hb1 : b1 < 256 := hb b1 (by simp)
    have hb2 : b2 < 256 := hb b2 (by simp)
    have e1 : b1 / 4 < 64 := by omega
    have e2 : b1 % 4 * 16 + b2 / 16 < 64 := by omega
    have e3 : b2 % 16 * 4 < 64 := by omega
    rw [b64encodeChunks]
    rw [a2b, if_neg (b64Char_ne_pad _ e1), sextetOf_b64Char _ e1]
    dsimp only
    rw [if_pos rfl]
    rw [a2b, if_neg (b64Char_ne_pad _ e2), sextetOf_b64Char _ e2]
    dsimp only
    rw [if_neg (by omega), if_pos rfl]
    rw [a2b, if_neg (b64Char_ne_pad _ e3), sextetOf_b64Char _ e3]
    dsimp only
    rw [if_neg (by omega), if_neg (by omega), if_pos rfl]
    rw [a2b, if_pos rfl, if_pos (by omega)]
    simp only [Option.map_some', Option.some.injEq, List.cons.injEq, and_true]
    refine ⟨by omega, by omega⟩
  | [b1, b2, b3], hb => by
    have hb1 : b1 < 256 := hb b1 (by simp)
    have hb2 : b2 < 256 := hb b2 (by simp)
    have hb3 : b3 < 256 := hb b3 (by simp)
    have e1 : b1 / 4 < 64 := by omega
    have e2 : b1 % 4 * 16 + b2 / 16 < 64 := by omega
    have e3 : b2 % 16 * 4 + b3 / 64 < 64 := by omega
    have e4 : b3 % 64 < 64 := by omega
    rw [b64encodeChunks]
    rw [a2b, if_neg (b64Char_ne_pad _ e1), sextetOf_b64Char _ e1]
    dsimp only
    rw [if_pos rfl]
    rw [a2b, if_neg (b64Char_ne_pad _ e2), sextetOf_b64Char _ e2]
    dsimp only
    rw [if_neg (by omega), if_pos rfl]
    rw [a2b, if_neg (b64Char_ne_pad _ e3), sextetOf_b64Char _ e3]
    dsimp only
    rw [if_neg (by omega), if_neg (by omega), if_pos rfl]
    rw [a2b, if_neg (b64Char_ne_pad _ e4), sextetOf_b64Char _ e4]
    dsimp only
    rw [if_neg (by omega), if_neg (by omega), if_neg (by omega)]
    rw [show a2b (b64encodeChunks []) 0 0 0 = some [] from rfl]
    simp only [Option.map_some', Option.some.injEq, List.cons.injEq, and_true]
    refine ⟨by omega, by omega, by omega⟩
  | b1 :: b2 :: b3 :: b4 :: bs', hb => by
    have hb1 : b1 < 256 := hb b1 (by simp)
    have hb2 : b2 < 256 := hb b2 (by simp)
    have hb3 : b3 < 256 := hb b3 (by simp)
    have e1 : b1 / 4 < 64 := by omega
    have e2 : b1 % 4 * 16 + b2 / 16 < 64 := by omega
    have e3 : b2 % 16 * 4 + b3 / 64 < 64 := by omega
    have e4 : b3 % 64 < 64 := by omega
    have ih := a2b_b64encodeChunks (b4 :: bs') (fun b hbm => hb b (by simp [hbm]))
    rw [b64encodeChunks]
    rw [a2b, if_neg (b64Char_ne_pad _ e1), sextetOf_b64Char _ e1]
    dsimp only
    rw [if_pos rfl]
    rw [a2b, if_neg (b64Char_ne_pad _ e2), sextetOf_b64Char _ e2]
    dsimp only
    rw [if_neg (by omega), if_pos rfl]
    rw [a2b, if_neg (b64Char_ne_pad _ e3), sextetOf_b64Char _ e3]
    dsimp only
    rw [if_neg (by omega), if_neg (by omega), if_pos rfl]
    rw [a2b, if_neg (b64Char_ne_pad _ e4), sextetOf_b64Char _ e4]
    dsimp only
    rw [if_neg (by omega), if_neg (by omega), if_neg (by omega)]
    rw [ih]
    simp only [Option.map_some', Option.some.injEq, List.cons.injEq, and_true]
    refine ⟨by omega, by omega, by omega⟩

/-- Every character the encoder emits is ASCII, so the `str.encode("ascii")`
step of a decode of an encoder output cannot raise. -/
theorem b64encodeChunks_ascii :
    ∀ (bs : List Nat), (∀ b ∈ bs, b < 256) →
      ∀ c ∈ b64encodeChunks bs, c.toNat ≤ 127
  | [], _, c, hc => absurd hc (List.not_mem_nil c)
  | [b1], hb, c, hc => by
    have hb1 : b1 < 256 := hb b1 (by simp)
    rw [b64encodeChunks] at hc
    simp only [List.mem_cons, List.not_mem_nil, or_false] at hc
    rcases hc with rfl | rfl | rfl | rfl
    · exact b64Char_ascii _ (by omega)
    · exact b64Char_ascii _ (by omega)
    · decide
    · decide
  | [b1, b2], hb, c, hc => by
    have hb1 : b1 < 256 := hb b1 (by simp)
    have hb2 : b2 < 256 := hb b2 (by simp)
    rw [b64encodeChunks] at hc
    simp only [List.mem_cons, List.not_mem_nil, or_false] at hc
    rcases hc with rfl | rfl | rfl | rfl
    · exact b64Char_ascii _ (by omega)
    · exact b64Char_ascii _ (by omega)
    · exact b64Char_ascii _ (by omega)
    · decide
  | b1 :: b2 :: b3 :: rest, hb, c, hc => by
    have hb1 : b1 < 256 := hb b1 (by simp)
    have hb2 : b2 < 256 := hb b2 (by simp)
    have hb3 : b3 < 256 := hb b3 (by simp)
    rw [b64encodeChunks] at hc
    simp only [List.mem_cons] at hc
    rcases hc with rfl | rfl | rfl | rfl | hc'
    · exact b64Char_ascii _ (by omega)
    · exact b64Char_ascii _ (by omega)
    · exact b64Char_ascii _ (by omega)
    · exact b64Char_ascii _ (by omega)
    · exact b64encodeChunks_ascii rest
        (fun b hbm => hb b (by simp [hbm])) c hc'

/-- Decoding is a left inverse of encoding on genuine byte lists
(string-level form). -/
theorem b64decode_b64encode (bs : List Nat) (hb : ∀ b ∈ bs, b < 256) :
    b64decode (b64encode bs) = some bs := by
  have hascii : (b64encode bs).toList.all (fun c => c.toNat ≤ 127) = true := by
    rw [List.all_eq_true]
    intro c hc
    exact decide_eq_true (b64encodeChunks_ascii bs hb c hc)
  rw [b64decode, if_pos hascii]
  exact a2b_b64encodeChunks bs hb

/-- Bytes coming out of a successful `b64decode` are genuine bytes. -/
theorem b64decode_bytes_lt {s : String} {bs : List Nat}
    (h : b64decode s = some bs) : ∀ b ∈ bs, b < 256 := by
  rw [b64decode] at h
  split_ifs at h
  · exact a2b_bytes_lt (by omega) (by omega) (by omega) h

theorem idxLookup_filter_ne (idx : List (String × CachedImage)) (r : String) :
    idxLookup (idx.filter (fun e => e.1 ≠ r)) r = none := by
  induction idx with
  | nil => rfl
  | cons e rest ih =>
    by_cases he : e.1 = r
    · simpa [List.filter_cons, he] using ih
    · simpa [List.filter_cons, he, idxLookup] using ih

theorem idxLookup_erase_self (idx : List (String × CachedImage)) (r : String) :
    idxLookup (idxErase idx r) r = none :=
  idxLookup_filter_ne idx r

theorem idxLookup_insert_self (idx : List (String × CachedImage)) (r : String)
    (img : CachedImage) : idxLookup (idxInsert idx r img) r = some img := by
  simp [idxInsert, idxLookup]

theorem idxLookup_filter_none {idx : List (String × CachedImage)} {r : String}
    (q : String × CachedImage → Bool) (h : idxLookup idx r = none) :
    idxLookup (idx.filter q) r = none := by
  induction idx with
  | nil => rfl
  | cons e rest ih =>
    rw [idxLookup] at h
    by_cases he : e.1 = r
    · rw [if_pos he] at h; cases h
    · rw [if_neg he] at h
      by_cases hq : q e
      · simpa [List.filter_cons, hq, idxLookup, he] using ih h
      · simpa [List.filter_cons, hq] using ih h

theorem findFile_filter_ne (l : List FileEnt) (p : String) :
    findFile (l.filter (fun f => f.path ≠ p)) p = none := by
  induction l with
  | nil => rfl
  | cons f rest ih =>
    by_cases hf : f.path = p
    · simpa [List.filter_cons, hf] using ih
    · simpa [List.filter_cons, hf, findFile] using ih

theorem findFile_mem {l : List FileEnt} {p : String} {f : FileEnt}
    (h : findFile l p = some f) : f ∈ l ∧ f.path = p := by
  induction l with
  | nil => cases h
  | cons g rest ih =>
    rw [findFile] at h
    by_cases hg : g.path = p
    · rw [if_pos hg] at h
      cases h
      exact ⟨List.mem_cons_self _ _, hg⟩
    · rw [if_neg hg] at h
      obtain ⟨hm, hp⟩ := ih h
      exact ⟨List.mem_cons_of_mem _ hm, hp⟩

/-- Claims C2/C5/C8/C10 need that `get_image` never touches the filesystem,
clock or cache-directory fields — the probe loop only inserts into the index. -/
theorem probeExts_frame (s : CacheState) (r : String) :
    ∀ l, (probeExts s r l).2.fs = s.fs ∧ (probeExts s r l).2.cacheDir = s.cacheDir ∧
      (probeExts s r l).2.now = s.now
  | [] => ⟨rfl, rfl, rfl⟩
  | ext :: rest => by
    rw [probeExts]
    by_cases he : fsExists s.fs (pathJoin s.cacheDir (r ++ ext))
    · simp [he]
    · simpa [he] using probeExts_frame s r rest

theorem getImage_frame (s : CacheState) (r : String) :
    (getImage s r).2.fs = s.fs ∧ (getImage s r).2.cacheDir = s.cacheDir ∧
      (getImage s r).2.now = s.now := by
  rw [getImage]
  rcases hl : idxLookup s.index r with _ | c
  · exact probeExts_frame s r probeCandidates
  · by_cases he : fsExists s.fs c.file_path
    · simp [he]
    · simpa [he] using probeExts_frame s r probeCandidates

theorem probeExts_none_eq {s : CacheState} {r : String} :
    ∀ {l}, (probeExts s r l).1 = none → probeExts s r l = (none, s)
  | [], _ => rfl
  | ext :: rest, h => by
    rw [probeExts] at h ⊢
    by_cases he : fsExists s.fs (pathJoin s.cacheDir (r ++ ext))
    · simp [he] at h
    · rw [if_neg he] at h ⊢
      exact probeExts_none_eq h

theorem probeExts_some {s : CacheState} {r : String} {c : CachedImage} :
    ∀ {l}, (probeExts s r l).1 = some c →
      fsExists s.fs c.file_path = true ∧
      (probeExts s r l).2 = { s with index := idxInsert s.index r c }
  | [], h => by cases h
  | ext :: rest, h => by
    rw [probeExts] at h ⊢
    by_cases he : fsExists s.fs (pathJoin s.cacheDir (r ++ ext))
    · rw [if_pos he] at h ⊢
      simp only [Option.some.injEq] at h
      subst h
      exact ⟨he, rfl⟩
    · rw [if_neg he] at h ⊢
      exact probeExts_some h

/-! ### Claim C4: extension derivation from the MIME type -/

theorem lookupExt_not_found {m : String} :
    ∀ {l : List (String × String)}, (∀ p ∈ l, p.1 ≠ m) → lookupExt l m = none
  | [], _ => rfl
  | e :: rest, h => by
    rw [lookupExt, if_neg (h e (List.mem_cons_self _ _))]
    exact lookupExt_not_found fun p hp => h p (List.mem_cons_of_mem _ hp)

/-- C4: `_get_file_extension` maps png, jpeg/jpg, gif, webp, bmp and svg+xml
to their canonical extensions, matches case-insensitively (two MIME strings
with the same lowercasing get the same extension), and defaults any
unrecognized MIME type to `.png`; in particular `"image/JPEG"` maps to `.jpg`
and `"application/octet-stream"` maps to `.png`. -/
theorem getFileExtension_spec :
    getFileExtension "image/JPEG" = ".jpg" ∧
    getFileExtension "application/octet-stream" = ".png" ∧
    getFileExtension "image/png" = ".png" ∧
    getFileExtension "image/jpeg" = ".jpg" ∧
    getFileExtension "image/jpg" = ".jpg" ∧
    getFileExtension "image/gif" = ".gif" ∧
    getFileExtension "image/webp" = ".webp" ∧
    getFileExtension "image/bmp" = ".bmp" ∧
    getFileExtension "image/svg+xml" = ".svg" ∧
    (∀ m₁ m₂ : String, pyLower m₁ = pyLower m₂ →
      getFileExtension m₁ = getFileExtension m₂) ∧
    (∀ m : String, (∀ p ∈ mimeToExt, p.1 ≠ pyLower m) →
      getFileExtension m = ".png") := by
  refine ⟨by decide, by decide, by decide, by decide, by decide, by decide,
          by decide, by decide, by decide, ?_, ?_⟩
  · intro m₁ m₂ h
    rw [getFileExtension, getFileExtension, h]
  · intro m h
    rw [getFileExtension, lookupExt_not_found h, Option.getD_none]

theorem getFileExtension_spec_witness :
    getFileExtension "IMAGE/GIF" = getFileExtension "image/gif" ∧
    getFileExtension "video/mp4" = ".png" :=
  ⟨getFileExtension_spec.2.2.2.2.2.2.2.2.2.1 "IMAGE/GIF" "image/gif" (by decide),
   getFileExtension_spec.2.2.2.2.2.2.2.2.2.2 "video/mp4" (by decide)⟩

/-! ### Claim C6: delete semantics -/

/-- C6: `delete_image` removes the index entry unconditionally when present;
it returns `true` exactly when an index entry existed, its backing file
existed, and `os.remove` succeeded (so `false` on a missing entry or a failed
removal, without raising); on success the backing file is gone; and a second
delete of the same reference after a successful one returns `false`. -/
theorem deleteImage_spec (s : CacheState) (r : String) :
    (idxLookup (deleteImage s r).2.index r = none) ∧
    ((deleteImage s r).1 = true ↔
      ∃ c, idxLookup s.index r = some c ∧ fsExists s.fs c.file_path = true ∧
        s.fs.removeFails c.file_path = false) ∧
    (∀ c, idxLookup s.index r = some c → (deleteImage s r).1 = true →
      fsExists (deleteImage s r).2.fs c.file_path = false) ∧
    ((deleteImage s r).1 = true → (deleteImage (deleteImage s r).2 r).1 = false) := by
  rcases hl : idxLookup s.index r with _ | c
  · have hd : deleteImage s r = (false, s) := by rw [deleteImage, hl]
    refine ⟨by rw [hd]; exact hl, ?_, ?_, ?_⟩
    · rw [hd]; simp
    · intro c hc; cases hc
    · intro h; rw [hd] at h; cases h
  · by_cases he : fsExists s.fs c.file_path = true
    · by_cases hrm : s.fs.removeFails c.file_path = true
      · have hd : deleteImage s r = (false, { s with index := idxErase s.index r }) := by
          rw [deleteImage, hl]; dsimp only; rw [if_pos he, if_pos hrm]
        refine ⟨by rw [hd]; exact idxLookup_erase_self s.index r, ?_, ?_, ?_⟩
        · rw [hd]
          constructor
          · intro h; cases h
          · rintro ⟨c', hc', -, hrm'⟩
            cases hc'
            simp [hrm] at hrm'
        · intro c' hc' h; rw [hd] at h; cases h
        · intro h; rw [hd] at h; cases h
      · have hd : deleteImage s r =
            (true, { s with index := idxErase s.index r,
                            fs := fsRemove s.fs c.file_path }) := by
          rw [deleteImage, hl]; dsimp only; rw [if_pos he, if_neg hrm]
        refine ⟨by rw [hd]; exact idxLookup_erase_self s.index r, ?_, ?_, ?_⟩
        · rw [hd]
          constructor
          · intro _; exact ⟨c, rfl, he, by simpa using hrm⟩
          · intro _; rfl
        · intro c' hc' _
          cases hc'
          rw [hd]
          simpa [fsExists, fsRemove] using congrArg Option.isSome
            (findFile_filter_ne s.fs.files c.file_path)
        · intro _
          rw [hd, deleteImage]
          rw [show idxLookup (idxErase s.index r) r = none from
            idxLookup_erase_self s.index r]
    · have hd : deleteImage s r = (false, { s with index := idxErase s.index r }) := by
        rw [deleteImage, hl]; dsimp only; rw [if_neg he]
      refine ⟨by rw [hd]; exact idxLookup_erase_self s.index r, ?_, ?_, ?_⟩
      · rw [hd]
        constructor
        · intro h; cases h
        · rintro ⟨c', hc', he', -⟩
          cases hc'
          exact absurd he' he
      · intro c' hc' h; rw [hd] at h; cases h
      · intro h; rw [hd] at h; cases h

theorem deleteImage_spec_witness :
    idxLookup (deleteImage delState "abc_0").2.index "abc_0" = none ∧
    (deleteImage delState "abc_0").1 = true ∧
    (deleteImage (deleteImage delState "abc_0").2 "abc_0").1 = false := by
  have h := deleteImage_spec delState "abc_0"
  refine ⟨h.1, ?_, ?_⟩
  · exact h.2.1.mpr ⟨delImg, by decide, by decide, rfl⟩
  · exact h.2.2.2 (h.2.1.mpr ⟨delImg, by decide, by decide, rfl⟩)

/-! ### Claim C7: malformed base64 on save -/

/-- C7: on a payload `base64.b64decode` rejects, `save_image` re-raises and
has no effect: no file is written and the index is untouched (the returned
state is exactly the initial one). -/
theorem saveImage_malformed (s : CacheState) (P id name M : String) (i : Nat)
    (h : b64decode P = none) :
    saveImage s P id name i M = (.error (), s) := by
  rw [saveImage, h]

theorem saveImage_malformed_witness :
    saveImage delState "QQ" "abc" "tool" 0 "image/png" = (.error (), delState) :=
  saveImage_malformed delState "QQ" "abc" "tool" "image/png" 0 (by decide)

/-! ### Claim C2: stale index entries -/

/-- C2 (counterexample): on a cache whose only index entry points at a
vanished file, with no candidate file on disk, `get_image` returns `None`
but the stale entry — whose `file_path` still does not exist — stays in the
index.  `get_image` never pops a stale entry; it only overwrites it when
reconstruction succeeds. -/
theorem getImage_stale_persists :
    (getImage staleState "r").1 = none ∧
    idxLookup (getImage staleState "r").2.index "r" = some staleImg ∧
    fsExists (getImage staleState "r").2.fs staleImg.file_path = false := by
  decide

/-- C2 (amended): a stale index entry is never *returned*: a successful
`get_image` always hands back an image whose file exists and which is the
current index entry for the reference; a failed `get_image` leaves the state
(stale entry included) unchanged rather than removing the entry. -/
theorem getImage_stale_handling (s : CacheState) (r : String) :
    ((getImage s r).1 = none → (getImage s r).2 = s) ∧
    (∀ c, (getImage s r).1 = some c →
      idxLookup (getImage s r).2.index r = some c ∧
      fsExists (getImage s r).2.fs c.file_path = true) := by
  constructor
  · intro h
    rw [getImage] at h ⊢
    rcases hl : idxLookup s.index r with _ | c
    · rw [hl] at h
      dsimp only at h ⊢
      rw [probeExts_none_eq h]
    · rw [hl] at h
      dsimp only at h ⊢
      by_cases he : fsExists s.fs c.file_path = true
      · rw [if_pos he] at h
        cases h
      · rw [if_neg he] at h ⊢
        rw [probeExts_none_eq h]
  · intro c h
    rw [getImage] at h ⊢
    rcases hl : idxLookup s.index r with _ | c₀
    · rw [hl] at h
      dsimp only at h ⊢
      obtain ⟨he, hst⟩ := probeExts_some h
      rw [hst]
      exact ⟨idxLookup_insert_self s.index r c, he⟩
    · rw [hl] at h
      dsimp only at h ⊢
      by_cases he₀ : fsExists s.fs c₀.file_path = true
      · rw [if_pos he₀] at h ⊢
        cases h
        exact ⟨hl, he₀⟩
      · rw [if_neg he₀] at h ⊢
        obtain ⟨he, hst⟩ := probeExts_some h
        rw [hst]
        exact ⟨idxLookup_insert_self s.index r c, he⟩

theorem getImage_stale_handling_witness :
    (getImage staleState "r").2 = staleState :=
  (getImage_stale_handling staleState "r").1 (by decide)

/-! ### Claim C8: read failure during base64 retrieval -/

/-- C8: when `get_image` succeeds but the subsequent file read raises, the
exception is caught and `get_image_base64` returns `None` (the "not found"
result); by the total `Option` return type of the model no exception ever
reaches the caller. -/
theorem getImageBase64_read_failure (s : CacheState) (r : String) (c : CachedImage)
    (h1 : (getImage s r).1 = some c)
    (h2 : s.fs.readFails c.file_path = true) :
    (getImageBase64 s r).1 = none := by
  have hfs : (getImage s r).2.fs = s.fs := (getImage_frame s r).1
  rw [getImageBase64]
  rcases hg : getImage s r with ⟨res, s'⟩
  rw [hg] at h1 hfs
  dsimp only at h1 hfs ⊢
  subst h1
  dsimp only
  rw [hfs, h2]
  rfl

theorem getImageBase64_read_failure_witness :
    (getImageBase64 readFailState "abc_0").1 = none :=
  getImageBase64_read_failure readFailState "abc_0" delImg (by decide) rfl

/-! ### Claim C5: reconstruction probe -/

theorem splitLastAux_none : ∀ {l : List Char}, splitLastAux l = none ↔ '_' ∉ l
  | [] => by simp [splitLastAux]
  | c :: rest => by
    rw [splitLastAux]
    rcases h : splitLastAux rest with _ | b
    · have hrest : '_' ∉ rest := splitLastAux_none.mp h
      by_cases hc : c = '_'
      · subst hc
        simp
      · have hc' : ('_' : Char) ≠ c := fun he => hc he.symm
        simp [hc, hrest, hc']
    · have hrest : '_' ∈ rest := by
        by_contra hnm
        rw [splitLastAux_none.mpr hnm] at h
        cases h
      simp [hrest]

theorem splitLastAux_decomp :
    ∀ {l b : List Char}, splitLastAux l = some b →
      ∃ a, l = b ++ '_' :: a ∧ '_' ∉ a
  | [], b, h => by cases h
  | c :: rest, b, h => by
    rw [splitLastAux] at h
    rcases hr : splitLastAux rest with _ | b' <;> rw [hr] at h <;> dsimp only at h
    · by_cases hc : c = '_'
      · rw [if_pos hc] at h
        cases h
        exact ⟨rest, by simp [hc], splitLastAux_none.mp hr⟩
      · rw [if_neg hc] at h; cases h
    · cases h
      obtain ⟨a, hl, ha⟩ := splitLastAux_decomp hr
      exact ⟨a, by simp [hl], ha⟩

theorem indexOf_append_not_mem {xs : List Char} (ys : List Char) (h : '_' ∉ xs) :
    List.indexOf '_' (xs ++ '_' :: ys) = xs.length := by
  induction xs with
  | nil => simp
  | cons x xs ih =>
    have hx : x ≠ '_' := fun he => h (he ▸ List.mem_cons_self x xs)
    rw [List.cons_append, List.indexOf_cons_ne _ hx,
        ih (fun hm => h (List.mem_cons_of_mem _ hm))]
    simp

/-- The source's `rsplit`-based reconstruction of `tool_call_id` computes
exactly the spec's "prefix before the last underscore (whole ref when there
is none)". -/
theorem toolCallIdOf_eq_spec (r : String) :
    toolCallIdOf r = prefixBeforeLastUnderscore r := by
  rw [toolCallIdOf, prefixBeforeLastUnderscore]
  rcases h : splitLastAux r.toList with _ | b <;> dsimp only
  · rw [if_neg (splitLastAux_none.mp h)]
  · obtain ⟨a, hl, ha⟩ := splitLastAux_decomp h
    have hmem : '_' ∈ r.toList := by
      rw [hl]
      exact List.mem_append_right _ (List.mem_cons_self _ _)
    rw [if_pos hmem]
    have hrev : r.toList.reverse = a.reverse ++ '_' :: b.reverse := by
      rw [hl]; simp
    have hidx : List.indexOf '_' r.toList.reverse = a.length := by
      rw [hrev, indexOf_append_not_mem _ (by simpa using ha)]
      simp
    have hlen : r.toList.length = b.length + 1 + a.length := by
      rw [hl]; simp; omega
    congr 1
    rw [hidx, hlen]
    have harith : b.length + 1 + a.length - 1 - a.length = b.length := by omega
    rw [harith, hl, List.take_left]

theorem probeExts_find_spec (s : CacheState) (r : String) :
    ∀ l : List String,
      (∀ ext, l.find? (fun e => fsExists s.fs (pathJoin s.cacheDir (r ++ e))) = some ext →
        probeExts s r l = (some (reconImage s r ext),
          { s with index := idxInsert s.index r (reconImage s r ext) })) ∧
      (l.find? (fun e => fsExists s.fs (pathJoin s.cacheDir (r ++ e))) = none →
        probeExts s r l = (none, s))
  | [] => ⟨fun _ h => (nomatch h), fun _ => rfl⟩
  | ext :: rest => by
    by_cases he : fsExists s.fs (pathJoin s.cacheDir (r ++ ext)) = true
    · constructor
      · intro ext' hf
        rw [List.find?_cons_of_pos
          (p := fun e => fsExists s.fs (pathJoin s.cacheDir (r ++ e))) rest he] at hf
        cases hf
        rw [probeExts, if_pos he]
      · intro hf
        rw [List.find?_cons_of_pos
          (p := fun e => fsExists s.fs (pathJoin s.cacheDir (r ++ e))) rest he] at hf
        cases hf
    · constructor
      · intro ext' hf
        rw [List.find?_cons_of_neg
          (p := fun e => fsExists s.fs (pathJoin s.cacheDir (r ++ e))) rest he] at hf
        rw [probeExts, if_neg he]
        exact (probeExts_find_spec s r rest).1 ext' hf
      · intro hf
        rw [List.find?_cons_of_neg
          (p := fun e => fsExists s.fs (pathJoin s.cacheDir (r ++ e))) rest he] at hf
        rw [probeExts, if_neg he]
        exact (probeExts_find_spec s r rest).2 hf

/-- C5: when the direct index-plus-file check fails, `get_image` probes
`{image_ref}{ext}` for `.png, .jpg, .gif, .webp, .bmp` in order: the first
candidate whose file exists (the `find?` witness) yields a reconstructed
image — `tool_call_id` the prefix before the last underscore (whole ref when
none), `tool_name` the sentinel `"unknown"`, `mime_type` `"image/{ext}"`
— which is also inserted into the index; with no matching candidate the
result is "not found" (the state untouched), never an error. -/
theorem getImage_probe_spec (s : CacheState) (r : String)
    (hmiss : ∀ c, idxLookup s.index r = some c → fsExists s.fs c.file_path = false) :
    (∀ ext,
      probeCandidates.find? (fun e => fsExists s.fs (pathJoin s.cacheDir (r ++ e))) =
          some ext →
      (getImage s r).1 = some
        { image_ref := r,
          tool_call_id := prefixBeforeLastUnderscore r, tool_name := "unknown",
          file_path := pathJoin s.cacheDir (r ++ ext),
          mime_type := "image/" ++ ext.drop 1, created_at := s.now } ∧
        idxLookup (getImage s r).2.index r = (getImage s r).1) ∧
    (probeCandidates.find? (fun e => fsExists s.fs (pathJoin s.cacheDir (r ++ e))) =
        none →
      getImage s r = (none, s)) := by
  have hprobe : getImage s r = probeExts s r probeCandidates := by
    rw [getImage]
    rcases hl : idxLookup s.index r with _ | c
    · rfl
    · dsimp only
      rw [if_neg (by simp [hmiss c hl])]
  have hspec := probeExts_find_spec s r probeCandidates
  constructor
  · intro ext hf
    have hres := hspec.1 ext hf
    rw [hprobe, hres]
    refine ⟨?_, ?_⟩
    · rw [reconImage, toolCallIdOf_eq_spec]
    · exact (idxLookup_insert_self s.index r _).trans rfl
  · intro hf
    rw [hprobe]
    exact hspec.2 hf

theorem getImage_probe_spec_witness :
    (getImage coldState "abc_0").1 = some
      { image_ref := "abc_0",
        tool_call_id := "abc", tool_name := "unknown", file_path := "d/abc_0.webp",
        mime_type := "image/webp", created_at := 7 } ∧
    idxLookup (getImage coldState "abc_0").2.index "abc_0" =
      (getImage coldState "abc_0").1 := by
  have h := (getImage_probe_spec coldState "abc_0"
    (by intro c hc; cases hc)).1 ".webp" (by decide)
  refine ⟨?_, h.2⟩
  rw [h.1]
  decide

/-! ### Claim C9: idempotent construction -/

/-! ### Claim C9: idempotent construction -/

/-- C9: re-invoking the constructor after a first construction returns the
already-initialized instance and leaves the stored singleton, its index and
its cache directory unchanged, whatever temp path the second call resolves. -/
theorem constructCache_idempotent (inst? : Option CacheInstance) (d₁ d₂ : String) :
    constructCache (constructCache inst? d₁).2 d₂ = constructCache inst? d₁ := by
  rcases inst? with _ | inst
  · rfl
  · rcases hi : inst.initialized
    · simp [constructCache, newAlloc, initInstance, hi]
    · simp [constructCache, newAlloc, initInstance, hi]

/-! ### Claims C1 and C10: save/retrieve round-trip, svg reconstruction gap -/

theorem fsExists_write_self (fs : FileSys) (p : String) (bs : List Nat) (t : Nat) :
    fsExists (fsWrite fs p bs t) p = true := by
  simp [fsExists, fsWrite, findFile]

theorem saveImage_ok {s : CacheState} {P : String} {bytes : List Nat}
    (id name : String) (i : Nat) (M : String)
    (hdec : b64decode P = some bytes)
    (hw : s.fs.writeFails (savedImage s id name i M).file_path = false) :
    saveImage s P id name i M =
      (.ok (savedImage s id name i M),
       { s with
          fs := fsWrite s.fs (savedImage s id name i M).file_path bytes s.now,
          index := idxInsert s.index (savedImage s id name i M).image_ref
            (savedImage s id name i M) }) := by
  rw [saveImage, hdec]
  dsimp only
  rw [hw]
  rfl

/-- C1: on a decodable payload `P` (and absent injected write/read failures),
`save_image` succeeds with the expected record, and an immediate
`get_image_base64` on its reference returns a pair whose second component is
exactly the saved MIME type `M` and whose first component re-decodes to
exactly the bytes of `P`. -/
theorem save_get_roundtrip (s : CacheState) (P id name M : String) (i : Nat)
    (hP : (b64decode P).isSome = true)
    (hw : s.fs.writeFails (savedImage s id name i M).file_path = false)
    (hr : s.fs.readFails (savedImage s id name i M).file_path = false) :
    ∃ data,
      (saveImage s P id name i M).1 = .ok (savedImage s id name i M) ∧
      (getImageBase64 (saveImage s P id name i M).2
        (savedImage s id name i M).image_ref).1 = some (data, M) ∧
      b64decode data = b64decode P := by
  rcases hdec : b64decode P with _ | bytes
  · rw [hdec] at hP; cases hP
  have hs := saveImage_ok id name i M hdec hw
  refine ⟨b64encode bytes, by rw [hs], ?_, ?_⟩
  · rw [hs]
    dsimp only
    have hex : fsExists (fsWrite s.fs (savedImage s id name i M).file_path bytes s.now)
        (savedImage s id name i M).file_path = true :=
      fsExists_write_self _ _ _ _
    have hget : getImage
        { s with
            fs := fsWrite s.fs (savedImage s id name i M).file_path bytes s.now,
            index := idxInsert s.index (savedImage s id name i M).image_ref
              (savedImage s id name i M) }
        (savedImage s id name i M).image_ref =
        (some (savedImage s id name i M),
         { s with
            fs := fsWrite s.fs (savedImage s id name i M).file_path bytes s.now,
            index := idxInsert s.index (savedImage s id name i M).image_ref
              (savedImage s id name i M) }) := by
      rw [getImage]
      rw [show idxLookup
          (idxInsert s.index (savedImage s id name i M).image_ref
            (savedImage s id name i M))
          (savedImage s id name i M).image_ref = some (savedImage s id name i M) from
        idxLookup_insert_self _ _ _]
      dsimp only
      rw [if_pos hex]
    rw [getImageBase64, hget]
    dsimp only
    rw [show (fsWrite s.fs (savedImage s id name i M).file_path bytes s.now).readFails
        (savedImage s id name i M).file_path = false from hr]
    rw [show fsRead (fsWrite s.fs (savedImage s id name i M).file_path bytes s.now)
          (savedImage s id name i M).file_path = some bytes from by
        simp [fsRead, fsWrite, findFile]]
    rfl
  · have hlt := b64decode_bytes_lt hdec
    rw [b64decode_b64encode bytes hlt]

theorem save_get_roundtrip_witness :
    ∃ data,
      (saveImage (cleanCacheState "d" 0) "SGVsbG8=" "abc" "shot" 0 "image/png").1 =
        .ok (savedImage (cleanCacheState "d" 0) "abc" "shot" 0 "image/png") ∧
      (getImageBase64 (saveImage (cleanCacheState "d" 0) "SGVsbG8=" "abc" "shot" 0
          "image/png").2
        (savedImage (cleanCacheState "d" 0) "abc" "shot" 0 "image/png").image_ref).1 =
        some (data, "image/png") ∧
      b64decode data = b64decode "SGVsbG8=" :=
  save_get_roundtrip (cleanCacheState "d" 0) "SGVsbG8=" "abc" "shot" "image/png" 0
    (by decide) rfl rfl

theorem str_append_cancel_left {a b c : String} (h : a ++ b = a ++ c) : b = c := by
  have hd := congrArg String.data h
  simp only [String.data_append] at hd
  exact String.ext (List.append_cancel_left hd)

theorem pathJoin_ext_ne (dir ref : String) {e₁ e₂ : String} (h : e₁ ≠ e₂) :
    pathJoin dir (ref ++ e₁) ≠ pathJoin dir (ref ++ e₂) := by
  intro he
  apply h
  apply str_append_cancel_left (a := dir ++ "/" ++ ref)
  simpa [pathJoin, String.append_assoc] using he

/-- C10: an image saved with MIME type `image/svg+xml` is stored under the
`.svg` extension, but the reconstruction probe only tries
`.png/.jpg/.gif/.webp/.bmp`; once the index entry is gone (as after a process
restart) while the `.svg` file is still on disk, `get_image` returns
"not found". -/
theorem svg_not_reconstructable (dir id name P : String) (i now : Nat)
    (hP : (b64decode P).isSome = true) :
    ∃ c s', saveImage (cleanCacheState dir now) P id name i "image/svg+xml" =
        (.ok c, s') ∧
      c.file_path = pathJoin dir ((id ++ "_" ++ toString i) ++ ".svg") ∧
      c.mime_type = "image/svg+xml" ∧
      fsExists s'.fs c.file_path = true ∧
      (getImage { s' with index := [] } c.image_ref).1 = none := by
  rcases hdec : b64decode P with _ | bytes
  · rw [hdec] at hP; cases hP
  have hw : (cleanCacheState dir now).fs.writeFails
      (savedImage (cleanCacheState dir now) id name i "image/svg+xml").file_path =
      false := rfl
  have hs := saveImage_ok id name i "image/svg+xml" hdec hw
  refine ⟨savedImage (cleanCacheState dir now) id name i "image/svg+xml", _, hs,
    ?_, rfl, ?_, ?_⟩
  · show pathJoin dir ((id ++ "_" ++ toString i) ++ getFileExtension "image/svg+xml") =
      pathJoin dir ((id ++ "_" ++ toString i) ++ ".svg")
    rw [show getFileExtension "image/svg+xml" = ".svg" from by decide]
  · exact fsExists_write_self _ _ _ _
  · have hpath : (savedImage (cleanCacheState dir now) id name i
        "image/svg+xml").file_path =
        pathJoin dir ((id ++ "_" ++ toString i) ++ ".svg") := by
      show pathJoin dir ((id ++ "_" ++ toString i) ++ getFileExtension "image/svg+xml") = _
      rw [show getFileExtension "image/svg+xml" = ".svg" from by decide]
    have h1 := pathJoin_ext_ne dir (id ++ "_" ++ toString i)
      (show (".svg" : String) ≠ ".png" by decide)
    have h2 := pathJoin_ext_ne dir (id ++ "_" ++ toString i)
      (show (".svg" : String) ≠ ".jpg" by decide)
    have h3 := pathJoin_ext_ne dir (id ++ "_" ++ toString i)
      (show (".svg" : String) ≠ ".gif" by decide)
    have h4 := pathJoin_ext_ne dir (id ++ "_" ++ toString i)
      (show (".svg" : String) ≠ ".webp" by decide)
    have h5 := pathJoin_ext_ne dir (id ++ "_" ++ toString i)
      (show (".svg" : String) ≠ ".bmp" by decide)
    have hext : getFileExtension "image/svg+xml" = ".svg" := by decide
    simp [getImage, idxLookup, probeCandidates, probeExts, fsExists, fsWrite,
          findFile, cleanCacheState, plainFS, savedImage, hext, h1, h2, h3, h4, h5]

theorem svg_not_reconstructable_witness :
    ∃ c s', saveImage (cleanCacheState "d" 3) "QQ==" "abc" "shot" 0 "image/svg+xml" =
        (.ok c, s') ∧
      c.file_path = pathJoin "d" (("abc" ++ "_" ++ toString 0) ++ ".svg") ∧
      c.mime_type = "image/svg+xml" ∧
      fsExists s'.fs c.file_path = true ∧
      (getImage { s' with index := [] } c.image_ref).1 = none :=
  svg_not_reconstructable "d" "abc" "shot" "QQ==" 0 3 (by decide)

/-! ### Claim C3: cleanup accounting -/

theorem filter_path_length {l : List FileEnt} {p : String} {f : FileEnt}
    (hN : (l.map FileEnt.path).Nodup) (hf : findFile l p = some f) :
    (l.filter (fun g => g.path ≠ p)).length + 1 = l.length := by
  induction l with
  | nil => cases hf
  | cons g rest ih =>
    rw [List.map_cons, List.nodup_cons] at hN
    rw [findFile] at hf
    by_cases hg : g.path = p
    · have hrest : rest.filter (fun x => x.path ≠ p) = rest := by
        rw [List.filter_eq_self]
        intro a ha
        simp only [ne_eq, decide_eq_true_eq]
        intro hap
        exact hN.1 (hg ▸ hap ▸ List.mem_map_of_mem FileEnt.path ha)
      rw [List.filter_cons, if_neg (by simp [hg]), hrest, List.length_cons]
    · rw [if_neg hg] at hf
      have := ih hN.2 hf
      rw [List.filter_cons, if_pos (by simp [hg]), List.length_cons, List.length_cons]
      omega

theorem deleteImage_frame (s : CacheState) (r : String) :
    (deleteImage s r).2.now = s.now ∧
    (deleteImage s r).2.fs.listFails = s.fs.listFails ∧
    (deleteImage s r).2.fs.files.Sublist s.fs.files := by
  rw [deleteImage]
  rcases idxLookup s.index r with _ | c
  · exact ⟨rfl, rfl, List.Sublist.refl _⟩
  · dsimp only
    by_cases he : fsExists s.fs c.file_path = true
    · by_cases hrm : s.fs.removeFails c.file_path = true
      · rw [if_pos he, if_pos hrm]
        exact ⟨rfl, rfl, List.Sublist.refl _⟩
      · rw [if_pos he, if_neg hrm]
        exact ⟨rfl, rfl, List.filter_sublist _⟩
    · rw [if_neg he]
      exact ⟨rfl, rfl, List.Sublist.refl _⟩

theorem deleteImage_lookup_self (s : CacheState) (r : String) :
    idxLookup (deleteImage s r).2.index r = none := by
  rw [deleteImage]
  rcases hl : idxLookup s.index r with _ | c
  · exact hl
  · dsimp only
    by_cases he : fsExists s.fs c.file_path = true
    · by_cases hrm : s.fs.removeFails c.file_path = true
      · rw [if_pos he, if_pos hrm]
        exact idxLookup_erase_self s.index r
      · rw [if_pos he, if_neg hrm]
        exact idxLookup_erase_self s.index r
    · rw [if_neg he]
      exact idxLookup_erase_self s.index r

theorem deleteImage_lookup_mono {s : CacheState} {r : String} (r' : String)
    (h : idxLookup s.index r = none) :
    idxLookup (deleteImage s r').2.index r = none := by
  rw [deleteImage]
  rcases hl : idxLookup s.index r' with _ | c
  · exact h
  · dsimp only
    by_cases he : fsExists s.fs c.file_path = true
    · by_cases hrm : s.fs.removeFails c.file_path = true
      · rw [if_pos he, if_pos hrm]
        exact idxLookup_filter_none _ h
      · rw [if_pos he, if_neg hrm]
        exact idxLookup_filter_none _ h
    · rw [if_neg he]
      exact idxLookup_filter_none _ h

theorem foldDelete_frame :
    ∀ (rs : List String) (s : CacheState),
      ((rs.foldl (fun a r => (deleteImage a r).2) s).now = s.now) ∧
      ((rs.foldl (fun a r => (deleteImage a r).2) s).fs.listFails = s.fs.listFails) ∧
      ((rs.foldl (fun a r => (deleteImage a r).2) s).fs.files.Sublist s.fs.files)
  | [], s => ⟨rfl, rfl, List.Sublist.refl _⟩
  | r :: rest, s => by
    rw [List.foldl_cons]
    obtain ⟨h1, h2, h3⟩ := foldDelete_frame rest (deleteImage s r).2
    obtain ⟨g1, g2, g3⟩ := deleteImage_frame s r
    exact ⟨h1.trans g1, h2.trans g2, h3.trans g3⟩

theorem foldDelete_none_mono :
    ∀ (rs : List String) {s : CacheState} {r : String},
      idxLookup s.index r = none →
      idxLookup ((rs.foldl (fun a r' => (deleteImage a r').2) s).index) r = none
  | [], _, _, h => h
  | r' :: rest, s, r, h => by
    rw [List.foldl_cons]
    exact foldDelete_none_mono rest (deleteImage_lookup_mono r' h)

theorem foldDelete_erases :
    ∀ (rs : List String) (s : CacheState) (r : String), r ∈ rs →
      idxLookup ((rs.foldl (fun a r' => (deleteImage a r').2) s).index) r = none
  | [], _, _, h => absurd h (List.not_mem_nil _)
  | r0 :: rest, s, r, h => by
    rw [List.foldl_cons]
    rcases List.mem_cons.mp h with h0 | hrest
    · subst h0
      exact foldDelete_none_mono rest (deleteImage_lookup_self s r)
    · exact foldDelete_erases rest (deleteImage s r0).2 r hrest

theorem orphanSweep_index :
    ∀ (l : List FileEnt) (s : CacheState), (orphanSweep s l).2.index = s.index
  | [], _ => rfl
  | f :: rest, s => by
    rw [orphanSweep]
    by_cases hex : fsExists s.fs f.path = true
    · rw [if_pos hex]
      by_cases hage : s.now - f.mtime > CACHE_EXPIRY
      · rw [if_pos hage]
        by_cases hrm : s.fs.removeFails f.path = true
        · rw [if_pos hrm]
        · rw [if_neg hrm]
          rcases hsw : orphanSweep { s with fs := fsRemove s.fs f.path } rest
            with ⟨c, s''⟩
          have := orphanSweep_index rest { s with fs := fsRemove s.fs f.path }
          rw [hsw] at this
          simpa [hsw] using this
      · rw [if_neg hage]
        exact orphanSweep_index rest s
    · rw [if_neg hex]
      exact orphanSweep_index rest s

theorem orphanSweep_length :
    ∀ (l : List FileEnt) (s : CacheState),
      (s.fs.files.map FileEnt.path).Nodup →
      (orphanSweep s l).2.fs.files.length + (orphanSweep s l).1 = s.fs.files.length
  | [], _, _ => rfl
  | f :: rest, s, hN => by
    rw [orphanSweep]
    by_cases hex : fsExists s.fs f.path = true
    · rw [if_pos hex]
      by_cases hage : s.now - f.mtime > CACHE_EXPIRY
      · rw [if_pos hage]
        by_cases hrm : s.fs.removeFails f.path = true
        · rw [if_pos hrm]
          simp
        · rw [if_neg hrm]
          rcases hg : findFile s.fs.files f.path with _ | g
          · rw [fsExists, hg] at hex; cases hex
          have hlen := filter_path_length hN hg
          have hN' : ((fsRemove s.fs f.path).files.map FileEnt.path).Nodup :=
            List.Nodup.sublist (List.Sublist.map _ (List.filter_sublist _)) hN
          have ih := orphanSweep_length rest { s with fs := fsRemove s.fs f.path } hN'
          dsimp only
          rcases hsw : orphanSweep { s with fs := fsRemove s.fs f.path } rest
            with ⟨c, s''⟩
          rw [hsw] at ih
          dsimp only at ih ⊢
          simp only [fsRemove] at ih hlen
          omega
      · rw [if_neg hage]
        exact orphanSweep_length rest s hN
    · rw [if_neg hex]
      exact orphanSweep_length rest s hN

theorem orphanSweep_removed_expired :
    ∀ (l : List FileEnt) (s : CacheState) (f : FileEnt),
      f ∈ s.fs.files → f ∉ (orphanSweep s l).2.fs.files →
      ∃ g ∈ l, g.path = f.path ∧ s.now - g.mtime > CACHE_EXPIRY
  | [], s, f, hf, hnf => absurd hf hnf
  | f0 :: rest, s, f, hf, hnf => by
    rw [orphanSweep] at hnf
    by_cases hex : fsExists s.fs f0.path = true
    · rw [if_pos hex] at hnf
      by_cases hage : s.now - f0.mtime > CACHE_EXPIRY
      · rw [if_pos hage] at hnf
        by_cases hrm : s.fs.removeFails f0.path = true
        · rw [if_pos hrm] at hnf
          exact absurd hf hnf
        · rw [if_neg hrm] at hnf
          dsimp only at hnf
          rcases hsw : orphanSweep { s with fs := fsRemove s.fs f0.path } rest
            with ⟨c, s''⟩
          rw [hsw] at hnf
          dsimp only at hnf
          by_cases hf' : f ∈ (fsRemove s.fs f0.path).files
          · have := orphanSweep_removed_expired rest
              { s with fs := fsRemove s.fs f0.path } f hf' (by rw [hsw]; exact hnf)
            obtain ⟨g, hg, hgp, hge⟩ := this
            exact ⟨g, List.mem_cons_of_mem _ hg, hgp, hge⟩
          · have hpath : f.path = f0.path := by
              by_contra hne
              exact hf' (List.mem_filter.mpr ⟨hf, by simpa using hne⟩)
            exact ⟨f0, List.mem_cons_self _ _, hpath.symm, hage⟩
      · rw [if_neg hage] at hnf
        obtain ⟨g, hg, hgp, hge⟩ := orphanSweep_removed_expired rest s f hf hnf
        exact ⟨g, List.mem_cons_of_mem _ hg, hgp, hge⟩
    · rw [if_neg hex] at hnf
      obtain ⟨g, hg, hgp, hge⟩ := orphanSweep_removed_expired rest s f hf hnf
      exact ⟨g, List.mem_cons_of_mem _ hg, hgp, hge⟩

/-- C3: `cleanup_expired` never raises and returns exactly the number of
expired index entries passed through delete plus the number of orphan files
actually removed from the directory in the second phase (measured by the drop
in the file count); every expired reference is gone from the index
afterwards; an `os.listdir` failure yields zero additional removals beyond
phase one; and every file the orphan phase removed was older than the
3600-second threshold. -/
theorem cleanupExpired_spec (s : CacheState)
    (hN : (s.fs.files.map FileEnt.path).Nodup) :
    ((cleanupExpired s).1 = (expiredRefs s).length +
      ((cleanupPhase1 s).fs.files.length - (cleanupExpired s).2.fs.files.length)) ∧
    (∀ r ∈ expiredRefs s, idxLookup (cleanupExpired s).2.index r = none) ∧
    (s.fs.listFails = true →
      cleanupExpired s = ((expiredRefs s).length, cleanupPhase1 s)) ∧
    (∀ f ∈ (cleanupPhase1 s).fs.files, f ∉ (cleanupExpired s).2.fs.files →
      s.now - f.mtime > CACHE_EXPIRY) := by
  obtain ⟨hnow, hlf, hsub⟩ := foldDelete_frame (expiredRefs s) s
  have hN1 : ((cleanupPhase1 s).fs.files.map FileEnt.path).Nodup :=
    List.Nodup.sublist (List.Sublist.map _ hsub) hN
  by_cases hl1 : (cleanupPhase1 s).fs.listFails = true
  · have hc : cleanupExpired s = ((expiredRefs s).length, cleanupPhase1 s) := by
      rw [cleanupExpired]
      dsimp only
      rw [if_pos hl1]
    refine ⟨?_, ?_, fun _ => hc, ?_⟩
    · rw [hc]
      simp
    · intro r hr
      rw [hc]
      exact foldDelete_erases (expiredRefs s) s r hr
    · intro f hf hnf
      rw [hc] at hnf
      exact absurd hf hnf
  · have hc : cleanupExpired s =
        ((expiredRefs s).length +
          (orphanSweep (cleanupPhase1 s) (cleanupPhase1 s).fs.files).1,
         (orphanSweep (cleanupPhase1 s) (cleanupPhase1 s).fs.files).2) := by
      rw [cleanupExpired]
      dsimp only
      rw [if_neg hl1]
    have hlen := orphanSweep_length (cleanupPhase1 s).fs.files (cleanupPhase1 s) hN1
    refine ⟨?_, ?_, ?_, ?_⟩
    · rw [hc]
      dsimp only
      omega
    · intro r hr
      rw [hc]
      dsimp only
      rw [orphanSweep_index (cleanupPhase1 s).fs.files (cleanupPhase1 s)]
      exact foldDelete_erases (expiredRefs s) s r hr
    · intro hl0
      exact absurd (show (cleanupPhase1 s).fs.listFails = true from hlf.trans hl0) hl1
    · intro f hf hnf
      rw [hc] at hnf
      dsimp only at hnf
      obtain ⟨g, hg, hgp, hge⟩ :=
        orphanSweep_removed_expired (cleanupPhase1 s).fs.files (cleanupPhase1 s) f hf hnf
      have hfg : g = f := List.inj_on_of_nodup_map hN1 hg hf hgp
      rw [← hnow]
      rw [← hfg]
      exact hge

theorem cleanupExpired_spec_witness :
    ((cleanupExpired sweepState).1 = (expiredRefs sweepState).length +
      ((cleanupPhase1 sweepState).fs.files.length -
        (cleanupExpired sweepState).2.fs.files.length)) ∧
    (∀ r ∈ expiredRefs sweepState,
      idxLookup (cleanupExpired sweepState).2.index r = none) :=
  ⟨(cleanupExpired_spec sweepState (by decide)).1,
   (cleanupExpired_spec sweepState (by decide)).2.1⟩

end ToolImageCache
